import Mathlib

/-!
Verification of the Synapse keyboard/mouse/clipboard-sharing program.

The development shallowly embeds the two core subsystems of the repository:

* the length-prefixed wire codec and protocol message model
  (`crates/flymouse-protocol/src/codec.rs`,
  `crates/synapse-protocol/src/message.rs`, `input.rs`, `screen.rs`);
* the focus state machine and input router of the controller
  (`crates/synapse-net/src/server.rs`), together with the connection
  teardown sequence of `handle_client` and the direction parsing of the
  CLI / GUI entry points (`src/main.rs`, `src-tauri/src/lib.rs`).

Modelling conventions:

* Rust `u8`/`u32`/`u64` values are `Nat` with explicit `% 2^w` or `< 2^w`
  bounds where overflow matters; `i32` is `Int` with the two's-complement
  range made explicit.
* `f64` appears in two roles.  On the wire, bincode reads and writes the
  raw 64-bit pattern of an `f64`, so wire messages carry the bit pattern
  as a `Nat < 2^64`.  Inside the focus manager the coordinates are used
  arithmetically, and are embedded as rationals (`ℚ`); the screen
  dimensions occurring in the claims keep all arithmetic exact.
* Byte buffers are `List Nat` whose entries are `< 256`; the bounds travel
  in wellformedness predicates.
* bincode (an external crate) is modelled by its documented v1 legacy
  format: fixed-width little-endian integers, `u32` enum tags, `u64`
  length-prefixed strings and sequences, one byte per `bool`.
-/

namespace Synapse

/-! ## Byte-level primitives -/

/-- `k` little-endian base-256 digits of `n` (model of the byte layout
produced by Rust's fixed-width little-endian integer writes). -/
def toLE : Nat → Nat → List Nat
  | 0, _ => []
  | k + 1, n => n % 256 :: toLE k (n / 256)

/-- Recompose a little-endian digit list into a natural number. -/
def fromLE : List Nat → Nat
  | [] => 0
  | b :: bs => b + 256 * fromLE bs

theorem toLE_length (k n : Nat) : (toLE k n).length = k := by
  induction k generalizing n with
  | zero => rfl
  | succ k ih => simp [toLE, ih]

theorem fromLE_toLE (k n : Nat) : fromLE (toLE k n) = n % 256 ^ k := by
  induction k generalizing n with
  | zero => simp [toLE, fromLE, Nat.mod_one]
  | succ k ih =>
      simp only [toLE, fromLE, ih]
      rw [pow_succ', Nat.mod_mul]

theorem fromLE_toLE_of_lt {k n : Nat} (h : n < 256 ^ k) :
    fromLE (toLE k n) = n := by
  rw [fromLE_toLE, Nat.mod_eq_of_lt h]

theorem toLE_bytes_lt (k n : Nat) : ∀ b ∈ toLE k n, b < 256 := by
  induction k generalizing n with
  | zero => simp [toLE]
  | succ k ih =>
      intro b hb
      simp only [toLE, List.mem_cons] at hb
      rcases hb with h | h
      · omega
      · exact ih _ b h

/-- Big-endian byte list of a `u32` value (`u32::to_be_bytes`). -/
def toBE4 (n : Nat) : List Nat :=
  [n / 256 ^ 3 % 256, n / 256 ^ 2 % 256, n / 256 % 256, n % 256]

/-- `u32::from_be_bytes` on the first four entries of a buffer. -/
def fromBE4 : List Nat → Nat
  | b0 :: b1 :: b2 :: b3 :: _ => ((b0 * 256 + b1) * 256 + b2) * 256 + b3
  | _ => 0

theorem toBE4_length (n : Nat) : (toBE4 n).length = 4 := rfl

theorem fromBE4_toBE4 {n : Nat} (h : n < 2 ^ 32) :
    fromBE4 (toBE4 n) = n := by
  simp only [toBE4, fromBE4]
  omega

theorem fromBE4_append (b0 b1 b2 b3 : Nat) (r : List Nat) :
    fromBE4 (b0 :: b1 :: b2 :: b3 :: r) =
      ((b0 * 256 + b1) * 256 + b2) * 256 + b3 := rfl

/-! ## Protocol data model

From `crates/synapse-protocol/src/screen.rs` and
`crates/flymouse-protocol/src/input.rs`. -/

/-- Screen edge direction (`screen.rs`, `enum Edge`), declaration order
`Top, Bottom, Left, Right`. -/
inductive Edge
  | top
  | bottom
  | left
  | right
  deriving DecidableEq, Repr

/-- Platform-independent key code (`input.rs`, `enum KeyCode`), in the
declaration order of the source. -/
inductive KeyCode
  | keyA | keyB | keyC | keyD | keyE | keyF | keyG | keyH | keyI | keyJ
  | keyK | keyL | keyM | keyN | keyO | keyP | keyQ | keyR | keyS | keyT
  | keyU | keyV | keyW | keyX | keyY | keyZ
  | num0 | num1 | num2 | num3 | num4 | num5 | num6 | num7 | num8 | num9
  | f1 | f2 | f3 | f4 | f5 | f6 | f7 | f8 | f9 | f10 | f11 | f12
  | leftShift | rightShift | leftCtrl | rightCtrl
  | leftAlt | rightAlt | leftMeta | rightMeta
  | escape | tab | capsLock | space | enter | backspace | delete
  | insert | home | «end» | pageUp | pageDown
  | arrowUp | arrowDown | arrowLeft | arrowRight
  | printScreen | scrollLock | pause
  | unknown (code : Nat)

/-- Mouse button (`input.rs`, `enum MouseButton`). -/
inductive MouseButton
  | left
  | right
  | middle
  | back
  | forward
  deriving DecidableEq, Repr

/-- Key press/release action (`input.rs`, `enum KeyAction`). -/
inductive KeyAction
  | press
  | release
  deriving DecidableEq, Repr

/-- Mouse-button press/release action (`input.rs`, `enum ButtonAction`). -/
inductive ButtonAction
  | press
  | release
  deriving DecidableEq, Repr

/-! ### Wire-level message model

From `crates/synapse-protocol/src/message.rs` and `screen.rs`.  Strings
are carried as their UTF-8 byte sequences (`List Nat`), `f64` fields as
their 64-bit patterns (`Nat`); the numeric bounds of the Rust types live
in the wellformedness predicates below. -/

/-- `ScreenRect` (`screen.rs`): origin as `i32`, size as `u32`. -/
structure WScreenRect where
  x : Int
  y : Int
  width : Nat
  height : Nat
  deriving DecidableEq, Repr

/-- `ScreenInfo` (`screen.rs`): `ScreenId(u32)`, UTF-8 name bytes, rect,
primary flag. -/
structure WScreenInfo where
  id : Nat
  name : List Nat
  rect : WScreenRect
  is_primary : Bool
  deriving DecidableEq, Repr

/-- Protocol `Message` (`message.rs`), with variants in source
declaration order; `DeviceId(String)` is its UTF-8 byte sequence and
every `f64` is its 64-bit pattern. -/
inductive WireMessage
  | hello (device_id : List Nat) (device_name : List Nat) (screens : List WScreenInfo)
  | welcome (device_id : List Nat) (device_name : List Nat) (screens : List WScreenInfo)
  | bye (device_id : List Nat)
  | mouseMove (x : Nat) (y : Nat)
  | mouseButtonEvent (button : MouseButton) (action : ButtonAction)
  | mouseScroll (dx : Nat) (dy : Nat)
  | keyEvent (key : KeyCode) (action : KeyAction)
  | enterScreen (screen_id : Nat) (px : Nat) (py : Nat)
  | leaveScreen (screen_id : Nat) (edge : Edge) (px : Nat) (py : Nat)
  | clipboardText (text : List Nat)
  | clipboardImage (width : Nat) (height : Nat) (data : List Nat)
  | ping (seq : Nat)
  | pong (seq : Nat)

/-! ### bincode serialization

Model of `bincode::serialize` for the `Message` type (v1 legacy format:
fixed-width little-endian integers, `u32` enum tags, `u64` length-prefixed
strings and sequences, one byte per `bool`). -/

/-- Little-endian `u32`. -/
def serU32 (n : Nat) : List Nat := toLE 4 n

/-- Little-endian `u64`; also the layout of an `f64`'s 64-bit pattern. -/
def serU64 (n : Nat) : List Nat := toLE 8 n

/-- Little-endian two's-complement `i32`. -/
def serI32 (z : Int) : List Nat := serU32 (z % (2 ^ 32 : Int)).toNat

/-- A `bool` is one byte, `1` for `true` and `0` for `false`. -/
def serBool (b : Bool) : List Nat := [if b then 1 else 0]

/-- A string or `Vec<u8>`: `u64` length then the raw bytes. -/
def serBytes (l : List Nat) : List Nat := serU64 l.length ++ l

/-- Concatenated element encodings of a sequence. -/
def serListAux (f : α → List Nat) : List α → List Nat
  | [] => []
  | x :: xs => f x ++ serListAux f xs

/-- A `Vec<T>`: `u64` length then the element encodings. -/
def serVec (f : α → List Nat) (xs : List α) : List Nat :=
  serU64 xs.length ++ serListAux f xs

/-- bincode tag of an `Edge` variant (declaration order). -/
def Edge.tag : Edge → Nat
  | .top => 0
  | .bottom => 1
  | .left => 2
  | .right => 3

/-- bincode tag of a `MouseButton` variant. -/
def MouseButton.tag : MouseButton → Nat
  | .left => 0
  | .right => 1
  | .middle => 2
  | .back => 3
  | .forward => 4

/-- bincode tag of a `KeyAction` variant. -/
def KeyAction.tag : KeyAction → Nat
  | .press => 0
  | .release => 1

/-- bincode tag of a `ButtonAction` variant. -/
def ButtonAction.tag : ButtonAction → Nat
  | .press => 0
  | .release => 1

/-- bincode tag of a `KeyCode` variant (declaration order in `input.rs`). -/
def KeyCode.tag : KeyCode → Nat
  | .keyA => 0 | .keyB => 1 | .keyC => 2 | .keyD => 3 | .keyE => 4
  | .keyF => 5 | .keyG => 6 | .keyH => 7 | .keyI => 8 | .keyJ => 9
  | .keyK => 10 | .keyL => 11 | .keyM => 12 | .keyN => 13 | .keyO => 14
  | .keyP => 15 | .keyQ => 16 | .keyR => 17 | .keyS => 18 | .keyT => 19
  | .keyU => 20 | .keyV => 21 | .keyW => 22 | .keyX => 23 | .keyY => 24
  | .keyZ => 25
  | .num0 => 26 | .num1 => 27 | .num2 => 28 | .num3 => 29 | .num4 => 30
  | .num5 => 31 | .num6 => 32 | .num7 => 33 | .num8 => 34 | .num9 => 35
  | .f1 => 36 | .f2 => 37 | .f3 => 38 | .f4 => 39 | .f5 => 40 | .f6 => 41
  | .f7 => 42 | .f8 => 43 | .f9 => 44 | .f10 => 45 | .f11 => 46 | .f12 => 47
  | .leftShift => 48 | .rightShift => 49 | .leftCtrl => 50 | .rightCtrl => 51
  | .leftAlt => 52 | .rightAlt => 53 | .leftMeta => 54 | .rightMeta => 55
  | .escape => 56 | .tab => 57 | .capsLock => 58 | .space => 59 | .enter => 60
  | .backspace => 61 | .delete => 62 | .insert => 63 | .home => 64
  | .«end» => 65 | .pageUp => 66 | .pageDown => 67
  | .arrowUp => 68 | .arrowDown => 69 | .arrowLeft => 70 | .arrowRight => 71
  | .printScreen => 72 | .scrollLock => 73 | .pause => 74
  | .unknown _ => 75

/-- Encoding of a `KeyCode`: tag, plus the raw code for `Unknown(u32)`. -/
def serKeyCode (k : KeyCode) : List Nat :=
  serU32 k.tag ++ (match k with
    | .unknown c => serU32 c
    | _ => [])

/-- Encoding of a `ScreenRect` in field order. -/
def serScreenRect (r : WScreenRect) : List Nat :=
  serI32 r.x ++ serI32 r.y ++ serU32 r.width ++ serU32 r.height

/-- Encoding of a `ScreenInfo` in field order. -/
def serScreenInfo (s : WScreenInfo) : List Nat :=
  serU32 s.id ++ serBytes s.name ++ serScreenRect s.rect ++ serBool s.is_primary

/-- `bincode::serialize` on a protocol `Message`: `u32` variant tag in
declaration order, then the fields in order. -/
def serializeMessage : WireMessage → List Nat
  | .hello did name screens =>
      serU32 0 ++ serBytes did ++ serBytes name ++ serVec serScreenInfo screens
  | .welcome did name screens =>
      serU32 1 ++ serBytes did ++ serBytes name ++ serVec serScreenInfo screens
  | .bye did => serU32 2 ++ serBytes did
  | .mouseMove x y => serU32 3 ++ serU64 x ++ serU64 y
  | .mouseButtonEvent b a => serU32 4 ++ serU32 b.tag ++ serU32 a.tag
  | .mouseScroll dx dy => serU32 5 ++ serU64 dx ++ serU64 dy
  | .keyEvent k a => serU32 6 ++ serKeyCode k ++ serU32 a.tag
  | .enterScreen sid px py => serU32 7 ++ serU32 sid ++ serU64 px ++ serU64 py
  | .leaveScreen sid e px py =>
      serU32 8 ++ serU32 sid ++ serU32 e.tag ++ serU64 px ++ serU64 py
  | .clipboardText t => serU32 9 ++ serBytes t
  | .clipboardImage w h d => serU32 10 ++ serU32 w ++ serU32 h ++ serBytes d
  | .ping s => serU32 11 ++ serU64 s
  | .pong s => serU32 12 ++ serU64 s

/-! ### bincode deserialization

Model of `bincode::deserialize` for the `Message` type.  Each reader
takes the remaining buffer and yields the value and the unread suffix,
or `none` on malformed input (bincode's error). -/

/-- Read a little-endian `u32`. -/
def pU32 : List Nat → Option (Nat × List Nat)
  | b0 :: b1 :: b2 :: b3 :: r => some (b0 + 256 * (b1 + 256 * (b2 + 256 * b3)), r)
  | _ => none

/-- Read a little-endian `u64` (also an `f64` bit pattern). -/
def pU64 : List Nat → Option (Nat × List Nat)
  | b0 :: b1 :: b2 :: b3 :: b4 :: b5 :: b6 :: b7 :: r =>
      some (b0 + 256 * (b1 + 256 * (b2 + 256 * (b3 + 256 * (b4 + 256 *
        (b5 + 256 * (b6 + 256 * b7)))))), r)
  | _ => none

/-- Read a little-endian two's-complement `i32`. -/
def pI32 (s : List Nat) : Option (Int × List Nat) :=
  match pU32 s with
  | some (n, r) => some (if n < 2 ^ 31 then (n : Int) else (n : Int) - 2 ^ 32, r)
  | none => none

/-- Read a `bool` byte; bincode rejects values other than `0` and `1`. -/
def pBool : List Nat → Option (Bool × List Nat)
  | 0 :: r => some (false, r)
  | 1 :: r => some (true, r)
  | _ => none

/-- Read a `u64` length then that many raw bytes (string / `Vec<u8>`). -/
def pBytes (s : List Nat) : Option (List Nat × List Nat) :=
  match pU64 s with
  | some (len, r) => if len ≤ r.length then some (r.take len, r.drop len) else none
  | none => none

/-- Read `n` consecutive elements. -/
def pListN (p : List Nat → Option (α × List Nat)) :
    Nat → List Nat → Option (List α × List Nat)
  | 0, s => some ([], s)
  | n + 1, s =>
      match p s with
      | some (x, r) =>
          match pListN p n r with
          | some (xs, r') => some (x :: xs, r')
          | none => none
      | none => none

/-- Read a `Vec<T>`: `u64` length then the elements. -/
def pVec (p : List Nat → Option (α × List Nat)) (s : List Nat) :
    Option (List α × List Nat) :=
  match pU64 s with
  | some (n, r) => pListN p n r
  | none => none

/-- Read an `Edge` by its variant tag. -/
def pEdge (s : List Nat) : Option (Edge × List Nat) :=
  match pU32 s with
  | some (0, r) => some (.top, r)
  | some (1, r) => some (.bottom, r)
  | some (2, r) => some (.left, r)
  | some (3, r) => some (.right, r)
  | _ => none

/-- Read a `MouseButton` by its variant tag. -/
def pMouseButton (s : List Nat) : Option (MouseButton × List Nat) :=
  match pU32 s with
  | some (0, r) => some (.left, r)
  | some (1, r) => some (.right, r)
  | some (2, r) => some (.middle, r)
  | some (3, r) => some (.back, r)
  | some (4, r) => some (.forward, r)
  | _ => none

/-- Read a `KeyAction` by its variant tag. -/
def pKeyAction (s : List Nat) : Option (KeyAction × List Nat) :=
  match pU32 s with
  | some (0, r) => some (.press, r)
  | some (1, r) => some (.release, r)
  | _ => none

/-- Read a `ButtonAction` by its variant tag. -/
def pButtonAction (s : List Nat) : Option (ButtonAction × List Nat) :=
  match pU32 s with
  | some (0, r) => some (.press, r)
  | some (1, r) => some (.release, r)
  | _ => none

/-- The unit `KeyCode` variants indexed by their bincode tag (declaration
order in `input.rs`); tag 75 is `Unknown(u32)` and is read separately. -/
def keyCodeTable : List KeyCode :=
  [.keyA, .keyB, .keyC, .keyD, .keyE, .keyF, .keyG, .keyH, .keyI, .keyJ,
   .keyK, .keyL, .keyM, .keyN, .keyO, .keyP, .keyQ, .keyR, .keyS, .keyT,
   .keyU, .keyV, .keyW, .keyX, .keyY, .keyZ,
   .num0, .num1, .num2, .num3, .num4, .num5, .num6, .num7, .num8, .num9,
   .f1, .f2, .f3, .f4, .f5, .f6, .f7, .f8, .f9, .f10, .f11, .f12,
   .leftShift, .rightShift, .leftCtrl, .rightCtrl,
   .leftAlt, .rightAlt, .leftMeta, .rightMeta,
   .escape, .tab, .capsLock, .space, .enter, .backspace, .delete,
   .insert, .home, .«end», .pageUp, .pageDown,
   .arrowUp, .arrowDown, .arrowLeft, .arrowRight,
   .printScreen, .scrollLock, .pause]

/-- Read a `KeyCode`: `u32` variant tag, then for `Unknown` (tag 75) the
raw `u32` code; tags past the variant count are a bincode error. -/
def pKeyCode (s : List Nat) : Option (KeyCode × List Nat) :=
  match pU32 s with
  | some (t, r) =>
      if t = 75 then
        match pU32 r with
        | some (c, r') => some (.unknown c, r')
        | none => none
      else
        match keyCodeTable.get? t with
        | some k => some (k, r)
        | none => none
  | none => none

/-- Read a `ScreenRect` in field order. -/
def pScreenRect (s : List Nat) : Option (WScreenRect × List Nat) :=
  match pI32 s with
  | some (x, s1) =>
      match pI32 s1 with
      | some (y, s2) =>
          match pU32 s2 with
          | some (w, s3) =>
              match pU32 s3 with
              | some (h, s4) => some (⟨x, y, w, h⟩, s4)
              | none => none
          | none => none
      | none => none
  | none => none

/-- Read a `ScreenInfo` in field order. -/
def pScreenInfo (s : List Nat) : Option (WScreenInfo × List Nat) :=
  match pU32 s with
  | some (id, s1) =>
      match pBytes s1 with
      | some (name, s2) =>
          match pScreenRect s2 with
          | some (rect, s3) =>
              match pBool s3 with
              | some (prim, s4) => some (⟨id, name, rect, prim⟩, s4)
              | none => none
          | none => none
      | none => none
  | none => none

/-- Read a protocol `Message`: `u32` variant tag, then the fields. -/
def parseMessage (s : List Nat) : Option (WireMessage × List Nat) :=
  match pU32 s with
  | some (0, s0) =>
      match pBytes s0 with
      | some (did, s1) =>
          match pBytes s1 with
          | some (name, s2) =>
              match pVec pScreenInfo s2 with
              | some (screens, s3) => some (.hello did name screens, s3)
              | none => none
          | none => none
      | none => none
  | some (1, s0) =>
      match pBytes s0 with
      | some (did, s1) =>
          match pBytes s1 with
          | some (name, s2) =>
              match pVec pScreenInfo s2 with
              | some (screens, s3) => some (.welcome did name screens, s3)
              | none => none
          | none => none
      | none => none
  | some (2, s0) =>
      match pBytes s0 with
      | some (did, s1) => some (.bye did, s1)
      | none => none
  | some (3, s0) =>
      match pU64 s0 with
      | some (x, s1) =>
          match pU64 s1 with
          | some (y, s2) => some (.mouseMove x y, s2)
          | none => none
      | none => none
  | some (4, s0) =>
      match pMouseButton s0 with
      | some (b, s1) =>
          match pButtonAction s1 with
          | some (a, s2) => some (.mouseButtonEvent b a, s2)
          | none => none
      | none => none
  | some (5, s0) =>
      match pU64 s0 with
      | some (dx, s1) =>
          match pU64 s1 with
          | some (dy, s2) => some (.mouseScroll dx dy, s2)
          | none => none
      | none => none
  | some (6, s0) =>
      match pKeyCode s0 with
      | some (k, s1) =>
          match pKeyAction s1 with
          | some (a, s2) => some (.keyEvent k a, s2)
          | none => none
      | none => none
  | some (7, s0) =>
      match pU32 s0 with
      | some (sid, s1) =>
          match pU64 s1 with
          | some (px, s2) =>
              match pU64 s2 with
              | some (py, s3) => some (.enterScreen sid px py, s3)
              | none => none
          | none => none
      | none => none
  | some (8, s0) =>
      match pU32 s0 with
      | some (sid, s1) =>
          match pEdge s1 with
          | some (e, s2) =>
              match pU64 s2 with
              | some (px, s3) =>
                  match pU64 s3 with
                  | some (py, s4) => some (.leaveScreen sid e px py, s4)
                  | none => none
              | none => none
          | none => none
      | none => none
  | some (9, s0) =>
      match pBytes s0 with
      | some (t, s1) => some (.clipboardText t, s1)
      | none => none
  | some (10, s0) =>
      match pU32 s0 with
      | some (w, s1) =>
          match pU32 s1 with
          | some (h, s2) =>
              match pBytes s2 with
              | some (d, s3) => some (.clipboardImage w h d, s3)
              | none => none
          | none => none
      | none => none
  | some (11, s0) =>
      match pU64 s0 with
      | some (n, s1) => some (.ping n, s1)
      | none => none
  | some (12, s0) =>
      match pU64 s0 with
      | some (n, s1) => some (.pong n, s1)
      | none => none
  | _ => none

/-- `bincode::deserialize` on a payload slice: parse one `Message`;
bincode v1's `deserialize` does not reject trailing bytes. -/
def bincodeDeserialize (payload : List Nat) : Option WireMessage :=
  match parseMessage payload with
  | some (m, _) => some m
  | none => none

/-! ### Wellformedness

The numeric bounds guaranteed by the Rust types: bytes are `u8` values,
lengths fit in `u64`, `u32`/`i32`/`f64`-pattern fields are in range. -/

/-- A byte string: every entry is a `u8`, the length fits in a `u64`. -/
def wfBytes (l : List Nat) : Bool :=
  l.all (fun b => b < 256) && decide (l.length < 2 ^ 64)

/-- `ScreenRect` bounds: `i32` origin, `u32` size. -/
def wfScreenRect (r : WScreenRect) : Bool :=
  decide (-(2 ^ 31) ≤ r.x) && decide (r.x < 2 ^ 31) &&
  decide (-(2 ^ 31) ≤ r.y) && decide (r.y < 2 ^ 31) &&
  decide (r.width < 2 ^ 32) && decide (r.height < 2 ^ 32)

/-- `ScreenInfo` bounds. -/
def wfScreenInfo (s : WScreenInfo) : Bool :=
  decide (s.id < 2 ^ 32) && wfBytes s.name && wfScreenRect s.rect

/-- `KeyCode` bounds: the raw code of `Unknown` is a `u32`. -/
def wfKeyCode : KeyCode → Bool
  | .unknown c => decide (c < 2 ^ 32)
  | _ => true

/-- A `Message` value every field of which is in the range of its Rust
type (true of every value the Rust program can construct). -/
def wfMessage : WireMessage → Bool
  | .hello did name screens =>
      wfBytes did && wfBytes name && screens.all wfScreenInfo &&
        decide (screens.length < 2 ^ 64)
  | .welcome did name screens =>
      wfBytes did && wfBytes name && screens.all wfScreenInfo &&
        decide (screens.length < 2 ^ 64)
  | .bye did => wfBytes did
  | .mouseMove x y => decide (x < 2 ^ 64) && decide (y < 2 ^ 64)
  | .mouseButtonEvent _ _ => true
  | .mouseScroll dx dy => decide (dx < 2 ^ 64) && decide (dy < 2 ^ 64)
  | .keyEvent k _ => wfKeyCode k
  | .enterScreen sid px py =>
      decide (sid < 2 ^ 32) && decide (px < 2 ^ 64) && decide (py < 2 ^ 64)
  | .leaveScreen sid _ px py =>
      decide (sid < 2 ^ 32) && decide (px < 2 ^ 64) && decide (py < 2 ^ 64)
  | .clipboardText t => wfBytes t
  | .clipboardImage w h d => decide (w < 2 ^ 32) && decide (h < 2 ^ 32) && wfBytes d
  | .ping n => decide (n < 2 ^ 64)
  | .pong n => decide (n < 2 ^ 64)

/-! ### Reader/writer round trips -/

theorem serU32_eq (n : Nat) :
    serU32 n = [n % 256, n / 256 % 256, n / 256 / 256 % 256,
      n / 256 / 256 / 256 % 256] := rfl

theorem pU32_ser {n : Nat} (h : n < 2 ^ 32) (r : List Nat) :
    pU32 (serU32 n ++ r) = some (n, r) := by
  simp only [serU32_eq, List.cons_append, List.nil_append, pU32,
    Option.some.injEq, Prod.mk.injEq]
  exact ⟨by omega, trivial⟩

theorem serU64_eq (n : Nat) :
    serU64 n = [n % 256, n / 256 % 256, n / 256 / 256 % 256,
      n / 256 / 256 / 256 % 256, n / 256 / 256 / 256 / 256 % 256,
      n / 256 / 256 / 256 / 256 / 256 % 256,
      n / 256 / 256 / 256 / 256 / 256 / 256 % 256,
      n / 256 / 256 / 256 / 256 / 256 / 256 / 256 % 256] := rfl

theorem pU64_ser {n : Nat} (h : n < 2 ^ 64) (r : List Nat) :
    pU64 (serU64 n ++ r) = some (n, r) := by
  simp only [serU64_eq, List.cons_append, List.nil_append, pU64,
    Option.some.injEq, Prod.mk.injEq]
  exact ⟨by omega, trivial⟩

theorem pI32_ser {z : Int} (h1 : -(2 ^ 31) ≤ z) (h2 : z < 2 ^ 31)
    (r : List Nat) : pI32 (serI32 z ++ r) = some (z, r) := by
  have hm : (z % (2 ^ 32 : Int)).toNat < 2 ^ 32 := by omega
  have hser : serI32 z = serU32 (z % (2 ^ 32 : Int)).toNat := rfl
  rw [pI32, hser, pU32_ser hm r]
  simp only [Option.some.injEq, Prod.mk.injEq]
  refine ⟨?_, trivial⟩
  split_ifs with hlt <;> omega

theorem pBool_ser (b : Bool) (r : List Nat) :
    pBool (serBool b ++ r) = some (b, r) := by
  cases b <;> rfl

theorem pBytes_ser {l : List Nat} (h : l.length < 2 ^ 64) (r : List Nat) :
    pBytes (serBytes l ++ r) = some (l, r) := by
  rw [pBytes, serBytes, List.append_assoc, pU64_ser h]
  show (if l.length ≤ (l ++ r).length
        then some ((l ++ r).take l.length, (l ++ r).drop l.length)
        else none) = some (l, r)
  have hle : l.length ≤ (l ++ r).length := by simp
  rw [if_pos hle, List.take_left, List.drop_left]

theorem pListN_ser {p : List Nat → Option (α × List Nat)}
    {f : α → List Nat} {xs : List α}
    (hp : ∀ x ∈ xs, ∀ r, p (f x ++ r) = some (x, r)) (r : List Nat) :
    pListN p xs.length (serListAux f xs ++ r) = some (xs, r) := by
  induction xs with
  | nil => rfl
  | cons x xs ih =>
      have hx := hp x (by simp)
      have hrest : ∀ y ∈ xs, ∀ r', p (f y ++ r') = some (y, r') := by
        intro y hy; exact hp y (by simp [hy])
      simp only [List.length_cons, serListAux, List.append_assoc, pListN,
        hx, ih hrest]

theorem pVec_ser {p : List Nat → Option (α × List Nat)}
    {f : α → List Nat} {xs : List α}
    (hlen : xs.length < 2 ^ 64)
    (hp : ∀ x ∈ xs, ∀ r, p (f x ++ r) = some (x, r)) (r : List Nat) :
    pVec p (serVec f xs ++ r) = some (xs, r) := by
  rw [pVec, serVec, List.append_assoc, pU64_ser hlen]
  show pListN p xs.length (serListAux f xs ++ r) = some (xs, r)
  exact pListN_ser hp r

theorem pEdge_ser (e : Edge) (r : List Nat) :
    pEdge (serU32 e.tag ++ r) = some (e, r) := by
  cases e <;> rfl

theorem pMouseButton_ser (b : MouseButton) (r : List Nat) :
    pMouseButton (serU32 b.tag ++ r) = some (b, r) := by
  cases b <;> rfl

theorem pKeyAction_ser (a : KeyAction) (r : List Nat) :
    pKeyAction (serU32 a.tag ++ r) = some (a, r) := by
  cases a <;> rfl

theorem pButtonAction_ser (a : ButtonAction) (r : List Nat) :
    pButtonAction (serU32 a.tag ++ r) = some (a, r) := by
  cases a <;> rfl

theorem pKeyCode_ser {k : KeyCode} (h : wfKeyCode k = true) (r : List Nat) :
    pKeyCode (serKeyCode k ++ r) = some (k, r) := by
  have htag : KeyCode.tag k < 2 ^ 32 := by cases k <;> norm_num [KeyCode.tag]
  cases k with
  | unknown c =>
      have hc : c < 2 ^ 32 := by simpa [wfKeyCode] using h
      simp only [serKeyCode, List.append_assoc, pKeyCode]
      rw [pU32_ser htag]
      simp [KeyCode.tag, pU32_ser hc]
  | _ =>
      simp only [serKeyCode, List.append_nil, pKeyCode]
      rw [pU32_ser htag]
      rfl

theorem pScreenRect_ser {rc : WScreenRect} (h : wfScreenRect rc = true)
    (r : List Nat) : pScreenRect (serScreenRect rc ++ r) = some (rc, r) := by
  simp only [wfScreenRect, Bool.and_eq_true, decide_eq_true_eq] at h
  obtain ⟨⟨⟨⟨⟨hx1, hx2⟩, hy1⟩, hy2⟩, hw⟩, hh⟩ := h
  simp only [serScreenRect, List.append_assoc, pScreenRect,
    pI32_ser hx1 hx2, pI32_ser hy1 hy2, pU32_ser hw, pU32_ser hh]

theorem pScreenInfo_ser {si : WScreenInfo} (h : wfScreenInfo si = true)
    (r : List Nat) : pScreenInfo (serScreenInfo si ++ r) = some (si, r) := by
  simp only [wfScreenInfo, Bool.and_eq_true, decide_eq_true_eq] at h
  obtain ⟨⟨hid, hname⟩, hrect⟩ := h
  have hlen : si.name.length < 2 ^ 64 := by
    simp only [wfBytes, Bool.and_eq_true, decide_eq_true_eq] at hname
    exact hname.2
  simp only [serScreenInfo, List.append_assoc, pScreenInfo, pU32_ser hid,
    pBytes_ser hlen, pScreenRect_ser hrect, pBool_ser]

theorem bytes_length_of_wf {l : List Nat} (h : wfBytes l = true) :
    l.length < 2 ^ 64 := by
  simp only [wfBytes, Bool.and_eq_true, decide_eq_true_eq] at h
  exact h.2

/-- The payload round trip: deserializing a serialized wellformed
`Message` yields the message and leaves any appended suffix unread. -/
theorem parseMessage_ser {m : WireMessage} (h : wfMessage m = true)
    (r : List Nat) : parseMessage (serializeMessage m ++ r) = some (m, r) := by
  cases m with
  | hello did name screens =>
      simp only [wfMessage, Bool.and_eq_true, decide_eq_true_eq,
        List.all_eq_true] at h
      obtain ⟨⟨⟨hdid, hname⟩, hscr⟩, hlen⟩ := h
      simp only [serializeMessage, List.append_assoc, parseMessage,
        pU32_ser (show (0 : Nat) < 2 ^ 32 by norm_num),
        pBytes_ser (bytes_length_of_wf hdid),
        pBytes_ser (bytes_length_of_wf hname),
        pVec_ser hlen (fun x hx r' => pScreenInfo_ser (hscr x hx) r')]
  | welcome did name screens =>
      simp only [wfMessage, Bool.and_eq_true, decide_eq_true_eq,
        List.all_eq_true] at h
      obtain ⟨⟨⟨hdid, hname⟩, hscr⟩, hlen⟩ := h
      simp only [serializeMessage, List.append_assoc, parseMessage,
        pU32_ser (show (1 : Nat) < 2 ^ 32 by norm_num),
        pBytes_ser (bytes_length_of_wf hdid),
        pBytes_ser (bytes_length_of_wf hname),
        pVec_ser hlen (fun x hx r' => pScreenInfo_ser (hscr x hx) r')]
  | bye did =>
      simp only [wfMessage] at h
      simp only [serializeMessage, List.append_assoc, parseMessage,
        pU32_ser (show (2 : Nat) < 2 ^ 32 by norm_num),
        pBytes_ser (bytes_length_of_wf h)]
  | mouseMove x y =>
      simp only [wfMessage, Bool.and_eq_true, decide_eq_true_eq] at h
      simp only [serializeMessage, List.append_assoc, parseMessage,
        pU32_ser (show (3 : Nat) < 2 ^ 32 by norm_num),
        pU64_ser h.1, pU64_ser h.2]
  | mouseButtonEvent b a =>
      simp only [serializeMessage, List.append_assoc, parseMessage,
        pU32_ser (show (4 : Nat) < 2 ^ 32 by norm_num),
        pMouseButton_ser, pButtonAction_ser]
  | mouseScroll dx dy =>
      simp only [wfMessage, Bool.and_eq_true, decide_eq_true_eq] at h
      simp only [serializeMessage, List.append_assoc, parseMessage,
        pU32_ser (show (5 : Nat) < 2 ^ 32 by norm_num),
        pU64_ser h.1, pU64_ser h.2]
  | keyEvent k a =>
      simp only [wfMessage] at h
      simp only [serializeMessage, List.append_assoc, parseMessage,
        pU32_ser (show (6 : Nat) < 2 ^ 32 by norm_num),
        pKeyCode_ser h, pKeyAction_ser]
  | enterScreen sid px py =>
      simp only [wfMessage, Bool.and_eq_true, decide_eq_true_eq] at h
      obtain ⟨⟨hsid, hpx⟩, hpy⟩ := h
      simp only [serializeMessage, List.append_assoc, parseMessage,
        pU32_ser (show (7 : Nat) < 2 ^ 32 by norm_num),
        pU32_ser hsid, pU64_ser hpx, pU64_ser hpy]
  | leaveScreen sid e px py =>
      simp only [wfMessage, Bool.and_eq_true, decide_eq_true_eq] at h
      obtain ⟨⟨hsid, hpx⟩, hpy⟩ := h
      simp only [serializeMessage, List.append_assoc, parseMessage,
        pU32_ser (show (8 : Nat) < 2 ^ 32 by norm_num),
        pU32_ser hsid, pEdge_ser, pU64_ser hpx, pU64_ser hpy]
  | clipboardText t =>
      simp only [wfMessage] at h
      simp only [serializeMessage, List.append_assoc, parseMessage,
        pU32_ser (show (9 : Nat) < 2 ^ 32 by norm_num),
        pBytes_ser (bytes_length_of_wf h)]
  | clipboardImage w hgt d =>
      simp only [wfMessage, Bool.and_eq_true, decide_eq_true_eq] at h
      obtain ⟨⟨hw, hh⟩, hd⟩ := h
      simp only [serializeMessage, List.append_assoc, parseMessage,
        pU32_ser (show (10 : Nat) < 2 ^ 32 by norm_num),
        pU32_ser hw, pU32_ser hh, pBytes_ser (bytes_length_of_wf hd)]
  | ping n =>
      simp only [wfMessage, decide_eq_true_eq] at h
      simp only [serializeMessage, List.append_assoc, parseMessage,
        pU32_ser (show (11 : Nat) < 2 ^ 32 by norm_num), pU64_ser h]
  | pong n =>
      simp only [wfMessage, decide_eq_true_eq] at h
      simp only [serializeMessage, List.append_assoc, parseMessage,
        pU32_ser (show (12 : Nat) < 2 ^ 32 by norm_num), pU64_ser h]

/-- `bincode::deserialize ∘ bincode::serialize` is the identity on
wellformed messages. -/
theorem bincodeDeserialize_ser {m : WireMessage} (h : wfMessage m = true) :
    bincodeDeserialize (serializeMessage m) = some m := by
  have h1 := parseMessage_ser h []
  rw [List.append_nil] at h1
  rw [bincodeDeserialize, h1]

/-! ## The length-prefixed frame codec

From `crates/flymouse-protocol/src/codec.rs` (`MessageCodec`). -/

/-- Maximum frame size: 16 MiB (`MAX_FRAME_SIZE` in `codec.rs`). -/
def MAX_FRAME_SIZE : Nat := 16 * 1024 * 1024

/-- Result of one `MessageCodec::decode` call on the input buffer.
`needMore` is `Ok(None)` (no bytes consumed); `done m rest` is
`Ok(Some(m))` with `rest` the unconsumed buffer suffix;
`frameTooLarge` and `malformed` are the two `bail!` errors. -/
inductive DecodeRes
  | needMore
  | frameTooLarge
  | malformed
  | done (m : WireMessage) (rest : List Nat)

/-- `MessageCodec::decode`: with fewer than 4 bytes ask for more; read
the big-endian `u32` length without consuming; reject lengths above
16 MiB; with fewer than `4 + len` bytes ask for more (the source also
calls `reserve`, which only grows capacity); otherwise consume the
prefix and `len` payload bytes and deserialize the payload. -/
def decode (src : List Nat) : DecodeRes :=
  if src.length < 4 then .needMore
  else if fromBE4 src > MAX_FRAME_SIZE then .frameTooLarge
  else if src.length < 4 + fromBE4 src then .needMore
  else
    match bincodeDeserialize ((src.drop 4).take (fromBE4 src)) with
    | some m => .done m ((src.drop 4).drop (fromBE4 src))
    | none => .malformed

/-- The encoder error (`bail!("frame too large ...")`). -/
inductive CodecError
  | frameTooLarge
  deriving DecidableEq, Repr

/-- `MessageCodec::encode`: serialize the payload, truncate its length
to `u32` (`payload.len() as u32`), reject lengths above 16 MiB before
anything is written, otherwise append the big-endian length prefix and
the payload to the output buffer `dst`. -/
def encode (item : WireMessage) (dst : List Nat) : Except CodecError (List Nat) :=
  if (serializeMessage item).length % 2 ^ 32 > MAX_FRAME_SIZE then
    .error .frameTooLarge
  else
    .ok (dst ++ toBE4 ((serializeMessage item).length % 2 ^ 32) ++
      serializeMessage item)

/-- One encoded frame: big-endian length prefix then payload. -/
def frameBytes (m : WireMessage) : List Nat :=
  toBE4 (serializeMessage m).length ++ serializeMessage m

/-- Concatenation of the frames of a message sequence. -/
def framesBytes : List WireMessage → List Nat
  | [] => []
  | m :: ms => frameBytes m ++ framesBytes ms

theorem encode_ok {m : WireMessage}
    (hsize : (serializeMessage m).length ≤ MAX_FRAME_SIZE) (dst : List Nat) :
    encode m dst = .ok (dst ++ frameBytes m) := by
  have hlt : (serializeMessage m).length < 2 ^ 32 := by
    have : MAX_FRAME_SIZE < 2 ^ 32 := by norm_num [MAX_FRAME_SIZE]
    omega
  rw [encode, if_neg, frameBytes, List.append_assoc]
  · rw [Nat.mod_eq_of_lt hlt]
  · rw [Nat.mod_eq_of_lt hlt]
    omega

theorem fromBE4_toBE4_append {n : Nat} (h : n < 2 ^ 32) (r : List Nat) :
    fromBE4 (toBE4 n ++ r) = n := by
  simp only [toBE4, List.cons_append, List.nil_append, fromBE4]
  omega

theorem decode_short {src : List Nat} (h : src.length < 4) :
    decode src = .needMore := by
  rw [decode, if_pos h]

/-- Decoding a buffer that starts with a full wellformed frame succeeds,
consuming exactly the four-byte prefix plus the payload. -/
theorem decode_frame {m : WireMessage} (hwf : wfMessage m = true)
    (hsize : (serializeMessage m).length ≤ MAX_FRAME_SIZE) (rest : List Nat) :
    decode (frameBytes m ++ rest) = .done m rest := by
  have hmax : MAX_FRAME_SIZE < 2 ^ 32 := by norm_num [MAX_FRAME_SIZE]
  have hlt : (serializeMessage m).length < 2 ^ 32 := by omega
  have hlen : (frameBytes m ++ rest).length =
      4 + (serializeMessage m).length + rest.length := by
    simp only [frameBytes, List.length_append, toBE4, List.length_cons,
      List.length_nil]
  have hfrom : fromBE4 (frameBytes m ++ rest) = (serializeMessage m).length := by
    rw [frameBytes, List.append_assoc]
    exact fromBE4_toBE4_append hlt _
  have hdrop : (frameBytes m ++ rest).drop 4 = serializeMessage m ++ rest := by
    rw [frameBytes, List.append_assoc]
    exact List.drop_left' (by simp [toBE4])
  rw [decode, if_neg (by omega), hfrom, if_neg (by omega), if_neg (by omega),
    hdrop, List.take_left, List.drop_left]
  have h1 := parseMessage_ser hwf []
  rw [List.append_nil] at h1
  rw [bincodeDeserialize, h1]

/-- A proper prefix of a frame leaves the decoder waiting for more
bytes, consuming nothing. -/
theorem decode_prefix_needMore {m : WireMessage}
    (hsize : (serializeMessage m).length ≤ MAX_FRAME_SIZE)
    {p q : List Nat} (hpq : p ++ q = frameBytes m) (hq : q ≠ []) :
    decode p = .needMore := by
  have hmax : MAX_FRAME_SIZE < 2 ^ 32 := by norm_num [MAX_FRAME_SIZE]
  have hlt : (serializeMessage m).length < 2 ^ 32 := by omega
  have hq1 : 0 < q.length := List.length_pos.mpr hq
  have hlen : p.length + q.length = 4 + (serializeMessage m).length := by
    have h := congrArg List.length hpq
    simp only [frameBytes, List.length_append, toBE4, List.length_cons,
      List.length_nil] at h
    omega
  by_cases h4 : p.length < 4
  · exact decode_short h4
  · have hp : p = (frameBytes m).take p.length := by
      rw [← hpq, List.take_left]
    have htake : (frameBytes m).take p.length =
        toBE4 (serializeMessage m).length ++
          (serializeMessage m).take (p.length - (toBE4 (serializeMessage m).length).length) := by
      rw [frameBytes, List.take_append_eq_append_take,
        List.take_of_length_le (by simp only [toBE4, List.length_cons, List.length_nil]; omega)]
    have hfrom : fromBE4 p = (serializeMessage m).length := by
      rw [hp, htake]
      exact fromBE4_toBE4_append hlt _
    rw [decode, if_neg h4, hfrom, if_neg (by omega), if_pos (by omega)]

theorem decode_done_length {src : List Nat} {m : WireMessage}
    {rest : List Nat} (h : decode src = .done m rest) :
    rest.length < src.length := by
  rw [decode] at h
  split_ifs at h with h1 h2 h3 <;>
    first
      | (split at h
         · cases h
           simp only [List.length_drop]
           omega
         · exact absurd h (by simp))
      | simp at h

/-- Decoding succeeds only by consuming exactly the four-byte length
prefix plus the announced payload length. -/
theorem decode_done_consumes {src : List Nat} {m : WireMessage}
    {rest : List Nat} (h : decode src = .done m rest) :
    rest = src.drop (4 + fromBE4 src) := by
  rw [decode] at h
  split_ifs at h with h1 h2 h3 <;>
    first
      | (split at h
         · cases h
           first
             | rfl
             | rw [List.drop_drop]
             | (rw [List.drop_drop]; congr 1; omega)
         · exact absurd h (by simp))
      | simp at h

/-- Repeatedly decode from the front of the buffer until the decoder
asks for more bytes or fails; return the decoded messages and the
remaining buffer.  This is the loop `FramedRead` runs around
`MessageCodec::decode` on every socket read. -/
def drainState (buf : List Nat) : List WireMessage × List Nat :=
  match h : decode buf with
  | .done m rest =>
      have : rest.length < buf.length := decode_done_length h
      let p := drainState rest
      (m :: p.1, p.2)
  | .needMore => ([], buf)
  | .frameTooLarge => ([], buf)
  | .malformed => ([], buf)
termination_by buf.length

theorem drainState_needMore {buf : List Nat} (h : decode buf = .needMore) :
    drainState buf = ([], buf) := by
  conv_lhs => unfold drainState
  split
  · rename_i m rest heq
    rw [h] at heq
    exact absurd heq (by simp)
  · rfl
  · rfl
  · rfl

theorem drainState_done {buf : List Nat} {m : WireMessage} {rest : List Nat}
    (h : decode buf = .done m rest) :
    drainState buf = ((m :: (drainState rest).1, (drainState rest).2)) := by
  conv_lhs => unfold drainState
  split
  · rename_i m' rest' heq
    rw [h] at heq
    cases heq
    rfl
  · rename_i heq
    rw [h] at heq
    exact absurd heq (by simp)
  · rename_i heq
    rw [h] at heq
    exact absurd heq (by simp)
  · rename_i heq
    rw [h] at heq
    exact absurd heq (by simp)

theorem drainState_nil : drainState [] = ([], []) :=
  drainState_needMore (decode_short (by simp))

/-- Single-shot decoding of a concatenation of wellformed frames
recovers exactly the message sequence, with an empty leftover buffer. -/
theorem drainState_frames {ms : List WireMessage}
    (h : ∀ m ∈ ms, wfMessage m = true ∧
      (serializeMessage m).length ≤ MAX_FRAME_SIZE) :
    drainState (framesBytes ms) = (ms, []) := by
  induction ms with
  | nil => exact drainState_nil
  | cons m ms ih =>
      obtain ⟨hwf, hsize⟩ := h m (by simp)
      have hrest : ∀ m' ∈ ms, wfMessage m' = true ∧
          (serializeMessage m').length ≤ MAX_FRAME_SIZE := by
        intro m' hm'; exact h m' (by simp [hm'])
      rw [framesBytes, drainState_done (decode_frame hwf hsize _), ih hrest]

/-- One byte arrives: append it to the buffer and drain. -/
def codecStep (st : List Nat × List WireMessage) (b : Nat) :
    List Nat × List WireMessage :=
  ((drainState (st.1 ++ [b])).2, st.2 ++ (drainState (st.1 ++ [b])).1)

/-- Feed a byte stream to the decoder one byte at a time, starting from
an empty buffer; return the final buffer and all decoded messages. -/
def feedBytes (bytes : List Nat) : List Nat × List WireMessage :=
  bytes.foldl codecStep ([], [])

theorem frameBytes_ne_nil (m : WireMessage) : frameBytes m ≠ [] := by
  simp [frameBytes, toBE4]

/-- Feeding the missing suffix of one frame byte-by-byte completes that
frame exactly at its last byte. -/
theorem foldl_codecStep_frame {m : WireMessage} (hwf : wfMessage m = true)
    (hsize : (serializeMessage m).length ≤ MAX_FRAME_SIZE) :
    ∀ (q p : List Nat) (out : List WireMessage), p ++ q = frameBytes m →
      q ≠ [] → q.foldl codecStep (p, out) = ([], out ++ [m]) := by
  intro q
  induction q with
  | nil => intro p out _ hq; exact absurd rfl hq
  | cons b q ih =>
      intro p out hpq _
      cases q with
      | nil =>
          have hfull : p ++ [b] = frameBytes m := hpq
          have hdec : decode (p ++ [b]) = .done m [] := by
            have h := decode_frame hwf hsize []
            rw [List.append_nil] at h
            rw [hfull, h]
          simp only [List.foldl_cons, List.foldl_nil, codecStep,
            drainState_done hdec, drainState_nil]
      | cons b' q' =>
          have hpre : (p ++ [b]) ++ (b' :: q') = frameBytes m := by
            rw [List.append_assoc]; exact hpq
          have hdec : decode (p ++ [b]) = .needMore :=
            decode_prefix_needMore hsize hpre (by simp)
          have hstep : codecStep (p, out) b = (p ++ [b], out) := by
            simp [codecStep, drainState_needMore hdec]
          rw [List.foldl_cons, hstep, ih (p ++ [b]) out hpre (by simp)]

/-- Feeding any concatenation of wellformed frames byte-by-byte from an
empty buffer yields exactly the message sequence and an empty buffer. -/
theorem foldl_codecStep_frames {ms : List WireMessage}
    (h : ∀ m ∈ ms, wfMessage m = true ∧
      (serializeMessage m).length ≤ MAX_FRAME_SIZE) :
    ∀ out : List WireMessage,
      (framesBytes ms).foldl codecStep ([], out) = ([], out ++ ms) := by
  induction ms with
  | nil => intro out; simp [framesBytes]
  | cons m ms ih =>
      intro out
      obtain ⟨hwf, hsize⟩ := h m (by simp)
      have hrest : ∀ m' ∈ ms, wfMessage m' = true ∧
          (serializeMessage m').length ≤ MAX_FRAME_SIZE := by
        intro m' hm'; exact h m' (by simp [hm'])
      rw [framesBytes, List.foldl_append,
        foldl_codecStep_frame hwf hsize (frameBytes m) [] out rfl
          (frameBytes_ne_nil m),
        ih hrest]
      simp

/-! ## The controller: focus manager and input router

From `crates/synapse-net/src/server.rs`.  Cursor coordinates (`f64` in
the source) are embedded as rationals; `u32` screen dimensions are
`Nat`; the `i32` screen-center coordinates are `Int` computed with the
same cast and truncating division as the source. -/

/-- Reinterpret a `u32` value as an `i32` (`screen_w as i32`). -/
def i32ofU32 (n : Nat) : Int :=
  if n % 2 ^ 32 < 2 ^ 31 then (n % 2 ^ 32 : Int) else (n % 2 ^ 32 : Int) - 2 ^ 32

/-- Server-side protocol message as routed by `handle_input_message`
(`synapse_protocol::Message`).  Coordinates are rationals standing for
the source's `f64` values.

Modelled from the spec: the `MouseDelta { dx, dy }` variant is sent by
`server.rs` and listed in the spec's message table, but the copy of
`message.rs` under `src/` predates it; it is included here with the
fields the spec and the call sites give it. -/
inductive Msg
  | hello (device_id : String) (device_name : String)
  | welcome (device_id : String) (device_name : String)
  | bye (device_id : String)
  | mouseMove (x : ℚ) (y : ℚ)
  | mouseDelta (dx : ℚ) (dy : ℚ)
  | mouseButtonEvent (button : MouseButton) (action : ButtonAction)
  | mouseScroll (dx : ℚ) (dy : ℚ)
  | keyEvent (key : KeyCode) (action : KeyAction)
  | enterScreen (screen_id : Nat) (px : ℚ) (py : ℚ)
  | leaveScreen (screen_id : Nat) (edge : Edge) (px : ℚ) (py : ℚ)
  | clipboardText (text : String)
  | clipboardImage (width : Nat) (height : Nat) (data : List Nat)
  | ping (seq : Nat)
  | pong (seq : Nat)

/-- Local compensation action (`synapse-net/src/lib.rs`,
`enum LocalAction`): warp the OS cursor to absolute coordinates. -/
inductive LocalAction
  | moveMouse (x : Int) (y : Int)

/-- Observer event (`synapse-net/src/lib.rs`, `enum ServerEvent`). -/
inductive ServerEvent
  | deviceConnected (device_id : String) (device_name : String)
  | deviceDisconnected (device_id : String)
  | focusChanged (target : String)
  | log (msg : String)

/-- `FocusState` (`server.rs`): local, or remote with the focus device,
the virtual cursor, the remote screen size and the entry edge. -/
inductive FocusState
  | local
  | remote (device_id : String) (virtual_x : ℚ) (virtual_y : ℚ)
      (remote_w : Nat) (remote_h : Nat) (entered_edge : Edge)

/-- `EDGE_THRESHOLD` (`server.rs`): 2.0 pixels. -/
def EDGE_THRESHOLD : ℚ := 2

/-- `FocusManager` (`server.rs`): focus state, controller screen size and
center, and the edge → device map (keys unique per edge, so a finite map
is embedded as a function). -/
structure FocusManager where
  state : FocusState
  screen_w : Nat
  screen_h : Nat
  center_x : Int
  center_y : Int
  edge_devices : Edge → Option (String × Nat × Nat)

namespace FocusManager

/-- `FocusManager::new`: local focus, empty edge map, center at
`(screen_w as i32 / 2, screen_h as i32 / 2)`. -/
def new (screen_w screen_h : Nat) : FocusManager where
  state := .local
  screen_w := screen_w
  screen_h := screen_h
  center_x := Int.tdiv (i32ofU32 screen_w) 2
  center_y := Int.tdiv (i32ofU32 screen_h) 2
  edge_devices := fun _ => none

/-- `FocusManager::set_edge_device`: insert or replace the edge entry. -/
def set_edge_device (fm : FocusManager) (edge : Edge) (device_id : String)
    (w h : Nat) : FocusManager :=
  { fm with edge_devices := fun e =>
      if e = edge then some (device_id, w, h) else fm.edge_devices e }

/-- `FocusManager::remove_device`: drop every edge binding whose device
is `device_id`, and fall back to local focus if that device held it. -/
def remove_device (fm : FocusManager) (device_id : String) : FocusManager :=
  { fm with
    edge_devices := fun e =>
      match fm.edge_devices e with
      | some (id, w, h) => if id = device_id then none else some (id, w, h)
      | none => none
    state :=
      match fm.state with
      | .remote fid vx vy rw rh ee =>
          if fid = device_id then .local else .remote fid vx vy rw rh ee
      | .local => .local }

/-- `FocusManager::opposite_edge`. -/
def opposite_edge : Edge → Edge
  | .left => .right
  | .right => .left
  | .top => .bottom
  | .bottom => .top

/-- `FocusManager::check_edge`: which screen edge (if any) the absolute
cursor position has reached, tested in the order Left, Right, Top,
Bottom with threshold 2.0. -/
def check_edge (fm : FocusManager) (x y : ℚ) : Option Edge :=
  if x ≤ EDGE_THRESHOLD then some .left
  else if x ≥ (fm.screen_w : ℚ) - EDGE_THRESHOLD then some .right
  else if y ≤ EDGE_THRESHOLD then some .top
  else if y ≥ (fm.screen_h : ℚ) - EDGE_THRESHOLD then some .bottom
  else none

/-- `FocusManager::entry_position`: initial virtual cursor position on
entering the remote screen through `edge`. -/
def entry_position (edge : Edge) (x y : ℚ) (sw sh rw rh : Nat) : ℚ × ℚ :=
  match edge with
  | .right => (0, y * (rh : ℚ) / (sh : ℚ))
  | .left => ((rw : ℚ), y * (rh : ℚ) / (sh : ℚ))
  | .bottom => (x * (rw : ℚ) / (sw : ℚ), 0)
  | .top => (x * (rw : ℚ) / (sw : ℚ), (rh : ℚ))

/-- `FocusManager::check_virtual_edge`: has the virtual cursor reached
the edge opposite to the entry edge? -/
def check_virtual_edge (vx vy : ℚ) (rw rh : Nat) (entered_edge : Edge) : Bool :=
  match opposite_edge entered_edge with
  | .left => decide (vx ≤ 0)
  | .right => decide (vx ≥ (rw : ℚ))
  | .top => decide (vy ≤ 0)
  | .bottom => decide (vy ≥ (rh : ℚ))

end FocusManager

/-- Rust's `f64::clamp(lo, hi)`. -/
def clampQ (v lo hi : ℚ) : ℚ :=
  if v < lo then lo else if v > hi then hi else v

/-- Everything one `handle_input_message` call does: the new focus
manager, the messages pushed to peer queues (with their target device),
the queued local actions, and the emitted observer events. -/
structure RouterResult where
  fm : FocusManager
  sent : List (String × Msg)
  actions : List LocalAction
  events : List ServerEvent

/-- The peer registry (`PeerMap`): device id → advertised screen size;
a registered peer's outbound queue always accepts messages. -/
def PeersMap := String → Option (Nat × Nat)

/-- `handle_input_message` (`server.rs`): route one captured input or
clipboard message through the focus manager.  Sends to a device reach
its queue only when the device is in the peer registry (the source's
`if let Some(peer) = peers_r.get(..)`). -/
def handle_input_message (msg : Msg) (fm : FocusManager) (peers : PeersMap) :
    RouterResult :=
  match fm.state with
  | .local =>
      match msg with
      | .mouseMove x y =>
          match fm.check_edge x y with
          | some edge =>
              match fm.edge_devices edge with
              | some (device_id, rw, rh) =>
                  let vp := FocusManager.entry_position edge x y
                    fm.screen_w fm.screen_h rw rh
                  let fm1 := { fm with
                    state := FocusState.remote device_id vp.1 vp.2 rw rh edge }
                  let outbox : List (String × Msg) :=
                    match peers device_id with
                    | some _ =>
                        [(device_id, Msg.enterScreen 0 vp.1 vp.2),
                         (device_id, Msg.mouseMove vp.1 vp.2)]
                    | none => []
                  ⟨fm1, outbox, [LocalAction.moveMouse fm.center_x fm.center_y],
                    [ServerEvent.focusChanged device_id]⟩
              | none => ⟨fm, [], [], []⟩
          | none => ⟨fm, [], [], []⟩
      | _ => ⟨fm, [], [], []⟩
  | .remote device_id virtual_x virtual_y remote_w remote_h entered_edge =>
      match msg with
      | .mouseMove x y =>
          let dx := x - (fm.center_x : ℚ)
          let dy := y - (fm.center_y : ℚ)
          if dx = 0 ∧ dy = 0 then
            ⟨fm, [], [], []⟩
          else
            let new_vx := clampQ (virtual_x + dx) 0 (remote_w : ℚ)
            let new_vy := clampQ (virtual_y + dy) 0 (remote_h : ℚ)
            if FocusManager.check_virtual_edge new_vx new_vy
                remote_w remote_h entered_edge then
              let fm1 := { fm with state := FocusState.local }
              let outbox : List (String × Msg) :=
                match peers device_id with
                | some _ =>
                    [(device_id, Msg.leaveScreen 0
                      (FocusManager.opposite_edge entered_edge) new_vx new_vy)]
                | none => []
              ⟨fm1, outbox, [], [ServerEvent.focusChanged ("local")]⟩
            else
              let fm1 := { fm with state := (FocusState.remote device_id
                new_vx new_vy remote_w remote_h entered_edge) }
              let outbox : List (String × Msg) :=
                match peers device_id with
                | some _ => [(device_id, Msg.mouseDelta dx dy)]
                | none => []
              ⟨fm1, outbox, [LocalAction.moveMouse fm.center_x fm.center_y], []⟩
      | .keyEvent _ _ | .mouseButtonEvent _ _ | .mouseScroll _ _ =>
          let outbox : List (String × Msg) :=
            match peers device_id with
            | some _ => [(device_id, msg)]
            | none => []
          ⟨fm, outbox, [], []⟩
      | .clipboardText _ | .clipboardImage _ _ _ =>
          let outbox : List (String × Msg) :=
            match peers device_id with
            | some _ => [(device_id, msg)]
            | none => []
          ⟨fm, outbox, [], []⟩
      | _ => ⟨fm, [], [], []⟩

/-! ## Connection registration and teardown (`handle_client`) -/

/-- The server state shared between connection handlers and the router:
the peer registry and the focus manager. -/
structure ServerShared where
  peers : PeersMap
  fm : FocusManager

/-- The screen size taken from a client's `Hello.screens`: the first
advertised screen, or `1920×1080` when the list is empty
(`handle_client`, the `(1920, 1080)` default). -/
def clientDims (screens : List WScreenInfo) : Nat × Nat :=
  match screens.head? with
  | some s => (s.rect.width, s.rect.height)
  | none => (1920, 1080)

/-- Post-handshake registration (`handle_client`): insert the peer into
the registry with its advertised dimensions, then bind it to the
configured client direction in the focus manager's edge map. -/
def registerPeer (st : ServerShared) (client_direction : Edge)
    (device_id : String) (screens : List WScreenInfo) : ServerShared where
  peers := fun d =>
    if d = device_id then some (clientDims screens) else st.peers d
  fm := st.fm.set_edge_device client_direction device_id
    (clientDims screens).1 (clientDims screens).2

/-- First teardown step (`handle_client` cleanup):
`peers.write().await.remove(&device_id)`. -/
def teardown_removePeer (st : ServerShared) (device_id : String) : ServerShared :=
  { st with peers := fun d => if d = device_id then none else st.peers d }

/-- Second teardown step (`handle_client` cleanup):
`fm.remove_device(&device_id)`. -/
def teardown_dropFocus (st : ServerShared) (device_id : String) : ServerShared :=
  { st with fm := st.fm.remove_device device_id }

/-- The complete teardown sequence, in source order: registry removal
first, then the focus-manager drop. -/
def teardown (st : ServerShared) (device_id : String) : ServerShared :=
  teardown_dropFocus (teardown_removePeer st device_id) device_id

/-- The registry invariant of the spec: whenever focus is remote on a
device, that device is present in the peer registry. -/
def RegInv (st : ServerShared) : Prop :=
  ∀ d vx vy rw rh e, st.fm.state = .remote d vx vy rw rh e →
    (st.peers d).isSome = true

/-! ## Direction parsing (`src-tauri/src/lib.rs` `parse_direction`; the
same `match` appears inline in `src/main.rs`). -/

/-- Rust's `str::to_lowercase` restricted to per-character lowering
(the direction names involved are ASCII). -/
def lowercase (s : String) : String := ⟨s.data.map Char.toLower⟩

/-- `parse_direction`: lowercase the argument and map the four known
direction names; anything else falls through `_ => Edge::Right`. -/
def parse_direction (s : String) : Edge :=
  match lowercase s with
  | "left" => .left
  | "right" => .right
  | "top" => .top
  | "bottom" => .bottom
  | _ => .right

/-! ## Claim theorems -/

/-- A `ClipboardImage` whose serialized payload is 4 GiB + 20 bytes: the
`payload.len() as u32` cast in the encoder truncates its length to 20. -/
def big4G : WireMessage :=
  .clipboardImage 0 0 (List.replicate (2 ^ 32) 0)

/-- A `ClipboardImage` whose serialized payload is exactly 16 MiB. -/
def bigMax : WireMessage :=
  .clipboardImage 0 0 (List.replicate (MAX_FRAME_SIZE - 20) 0)

/-- A `ClipboardImage` whose serialized payload is 16 MiB + 1. -/
def bigOver : WireMessage :=
  .clipboardImage 0 0 (List.replicate (MAX_FRAME_SIZE - 19) 0)

theorem wf_clipboardImage_replicate (n : Nat) (h : n < 2 ^ 64) :
    wfMessage (.clipboardImage 0 0 (List.replicate n 0)) = true := by
  simp [wfMessage, wfBytes, List.all_eq_true, List.mem_replicate]
  omega

theorem serializeMessage_clipboardImage_replicate (n : Nat) :
    serializeMessage (.clipboardImage 0 0 (List.replicate n 0)) =
      (serU32 10 ++ serU32 0 ++ serU32 0 ++ serU64 n) ++ List.replicate n 0 := by
  simp [serializeMessage, serBytes, List.length_replicate, List.append_assoc]

theorem length_serialize_clipboardImage_replicate (n : Nat) :
    (serializeMessage (.clipboardImage 0 0 (List.replicate n 0))).length =
      20 + n := by
  rw [serializeMessage_clipboardImage_replicate]
  simp [serU32, serU64, toLE_length, List.length_replicate]
  omega

/-- C2, the claim as stated is false: a 4 GiB `ClipboardImage` encodes
successfully (its length truncates to 20 in the `u32` cast), but the
resulting frame announces only 20 payload bytes and decoding it fails
with `MalformedFrame` instead of returning the message. -/
theorem c2_roundtrip_counterexample :
    wfMessage big4G = true ∧
    encode big4G [] = .ok (toBE4 20 ++ serializeMessage big4G) ∧
    decode (toBE4 20 ++ serializeMessage big4G) = .malformed := by
  have hlen : (serializeMessage big4G).length = 20 + 2 ^ 32 :=
    length_serialize_clipboardImage_replicate (2 ^ 32)
  have hmod : (20 + 2 ^ 32) % 2 ^ 32 = 20 := by norm_num
  refine ⟨wf_clipboardImage_replicate _ (by norm_num), ?_, ?_⟩
  · rw [encode, hlen, hmod, if_neg (by norm_num [MAX_FRAME_SIZE]),
      List.nil_append]
  · have h4 : ¬((toBE4 20 ++ serializeMessage big4G).length < 4) := by
      rw [List.length_append, toBE4_length]
      omega
    have hfrom : fromBE4 (toBE4 20 ++ serializeMessage big4G) = 20 :=
      fromBE4_toBE4_append (by norm_num) _
    have hdrop : (toBE4 20 ++ serializeMessage big4G).drop 4 =
        serializeMessage big4G :=
      List.drop_left' (toBE4_length 20)
    have htake : (serializeMessage big4G).take 20 =
        serU32 10 ++ serU32 0 ++ serU32 0 ++ serU64 (2 ^ 32) := by
      rw [show serializeMessage big4G =
        (serU32 10 ++ serU32 0 ++ serU32 0 ++ serU64 (2 ^ 32)) ++
          List.replicate (2 ^ 32) 0 from
            serializeMessage_clipboardImage_replicate (2 ^ 32)]
      exact List.take_left' (by simp [serU32, serU64, toLE_length])
    rw [decode, if_neg h4, hfrom, if_neg (by norm_num [MAX_FRAME_SIZE]),
      if_neg (by rw [List.length_append, toBE4_length, hlen]; omega),
      hdrop, htake]
    rfl

/-- C2 (amended): for every wellformed `Message` whose serialized
payload is at most 16 MiB, decoding the frame produced by a successful
encode yields exactly the message, with nothing left over. -/
theorem c2_roundtrip (m : WireMessage) (bytes : List Nat)
    (hwf : wfMessage m = true)
    (hsize : (serializeMessage m).length ≤ MAX_FRAME_SIZE)
    (henc : encode m [] = .ok bytes) :
    decode bytes = .done m [] := by
  rw [encode_ok hsize] at henc
  cases henc
  rw [List.nil_append]
  have h := decode_frame hwf hsize []
  rwa [List.append_nil] at h

/-- C2 witness: the round trip at `Ping(7)`. -/
theorem c2_roundtrip_witness :
    decode (toBE4 12 ++ serializeMessage (.ping 7)) = .done (.ping 7) [] :=
  c2_roundtrip (.ping 7) _ (by decide) (by decide) (by rfl)

/-- C3, the claim as stated is false: the encode bound is not universal
over messages.  `big4G`'s serialized payload is 4 GiB + 20 bytes — far
above 16 MiB — yet `payload.len() as u32` truncates the length to 20
before the bound check, so encoding succeeds instead of failing with
`FrameTooLarge`. -/
theorem c3_bound_counterexample :
    MAX_FRAME_SIZE < (serializeMessage big4G).length ∧
    encode big4G [] = .ok (toBE4 20 ++ serializeMessage big4G) := by
  have hlen : (serializeMessage big4G).length = 20 + 2 ^ 32 :=
    length_serialize_clipboardImage_replicate (2 ^ 32)
  constructor
  · rw [hlen]
    norm_num [MAX_FRAME_SIZE]
  · rw [encode, hlen, (by norm_num : (20 + 2 ^ 32) % 2 ^ 32 = 20),
      if_neg (by norm_num [MAX_FRAME_SIZE]), List.nil_append]

/-- C3 (amended): (a) encoding any message whose serialized payload
exceeds 16 MiB *and is smaller than 4 GiB* (so the `u32` length cast is
exact) fails with `FrameTooLarge` for every output buffer, writing
nothing; (b) a payload of exactly 16 MiB is accepted by the encoder;
(c) the resulting exactly-16-MiB frame is accepted by the decoder;
(d) a buffer whose big-endian length prefix exceeds 16 MiB fails with
`FrameTooLarge`, and the result does not depend on the bytes after the
prefix (no payload byte is read or consumed). -/
theorem c3_frame_bound :
    (∀ (m : WireMessage) (dst : List Nat),
      MAX_FRAME_SIZE < (serializeMessage m).length →
      (serializeMessage m).length < 2 ^ 32 →
      encode m dst = .error .frameTooLarge) ∧
    encode bigMax [] = .ok (toBE4 MAX_FRAME_SIZE ++ serializeMessage bigMax) ∧
    decode (toBE4 MAX_FRAME_SIZE ++ serializeMessage bigMax) = .done bigMax [] ∧
    (∀ b0 b1 b2 b3 rest rest',
      fromBE4 (b0 :: b1 :: b2 :: b3 :: rest) > MAX_FRAME_SIZE →
        decode (b0 :: b1 :: b2 :: b3 :: rest) = .frameTooLarge ∧
        decode (b0 :: b1 :: b2 :: b3 :: rest) =
          decode (b0 :: b1 :: b2 :: b3 :: rest')) := by
  have hmaxlen : (serializeMessage bigMax).length = MAX_FRAME_SIZE := by
    rw [bigMax, length_serialize_clipboardImage_replicate]
    norm_num [MAX_FRAME_SIZE]
  have hmaxwf : wfMessage bigMax = true :=
    wf_clipboardImage_replicate _ (by norm_num [MAX_FRAME_SIZE])
  refine ⟨?_, ?_, ?_, ?_⟩
  · intro m dst h1 h2
    rw [encode, Nat.mod_eq_of_lt h2, if_pos h1]
  · have h := encode_ok (m := bigMax) (by omega) []
    rw [List.nil_append, frameBytes, hmaxlen] at h
    exact h
  · have h := decode_frame hmaxwf (by omega) []
    rw [List.append_nil, frameBytes, hmaxlen] at h
    exact h
  · intro b0 b1 b2 b3 rest rest' hbig
    have hbig' : fromBE4 (b0 :: b1 :: b2 :: b3 :: rest') > MAX_FRAME_SIZE := by
      rw [fromBE4_append] at hbig ⊢
      exact hbig
    constructor
    · rw [decode, if_neg (by simp), if_pos hbig]
    · rw [decode, if_neg (by simp), if_pos hbig,
        decode, if_neg (by simp), if_pos hbig']

/-- C3 witness: a 16 MiB + 1 payload is rejected by the encoder for the
empty output buffer, and a length prefix of `0xFFFFFFFF` is rejected by
the decoder regardless of what follows. -/
theorem c3_frame_bound_witness :
    encode bigOver [] = .error .frameTooLarge ∧
    decode [255, 255, 255, 255] = .frameTooLarge := by
  have hlen : (serializeMessage bigOver).length = MAX_FRAME_SIZE + 1 := by
    rw [bigOver, length_serialize_clipboardImage_replicate]
    norm_num [MAX_FRAME_SIZE]
  refine ⟨c3_frame_bound.1 bigOver [] ?_ ?_, (c3_frame_bound.2.2.2
    255 255 255 255 [] [] (by decide)).1⟩
  · rw [hlen]
    omega
  · rw [hlen]
    norm_num [MAX_FRAME_SIZE]

/-- C8: (a) feeding the concatenated frames of any wellformed message
sequence to the decoder one byte at a time yields exactly the same
messages as single-shot draining, namely the original sequence; (b) a
buffer shorter than four bytes, or shorter than `4 + L` with an
acceptable announced length `L`, leaves the decoder asking for more
bytes with nothing consumed; (c) a successful decode consumes exactly
the four-byte prefix plus the `L` announced payload bytes. -/
theorem c8_streaming :
    (∀ ms : List WireMessage,
      (∀ m ∈ ms, wfMessage m = true ∧
        (serializeMessage m).length ≤ MAX_FRAME_SIZE) →
      (feedBytes (framesBytes ms)).2 = ms ∧
      drainState (framesBytes ms) = (ms, []) ∧
      (feedBytes (framesBytes ms)).2 = (drainState (framesBytes ms)).1) ∧
    (∀ buf : List Nat, buf.length < 4 → decode buf = .needMore) ∧
    (∀ buf : List Nat, 4 ≤ buf.length → fromBE4 buf ≤ MAX_FRAME_SIZE →
      buf.length < 4 + fromBE4 buf → decode buf = .needMore) ∧
    (∀ (buf : List Nat) (m : WireMessage) (rest : List Nat),
      decode buf = .done m rest → rest = buf.drop (4 + fromBE4 buf)) := by
  refine ⟨?_, ?_, ?_, ?_⟩
  · intro ms h
    have hfeed : feedBytes (framesBytes ms) = ([], ms) := by
      rw [feedBytes, foldl_codecStep_frames h []]
      simp
    refine ⟨by rw [hfeed], drainState_frames h, ?_⟩
    rw [hfeed, drainState_frames h]
  · intro buf h
    exact decode_short h
  · intro buf h1 h2 h3
    rw [decode, if_neg (by omega), if_neg (by omega), if_pos h3]
  · intro buf m rest h
    exact decode_done_consumes h

/-- C8 witness: two heartbeat frames, fed byte by byte. -/
theorem c8_streaming_witness :
    (feedBytes (framesBytes [.ping 1, .pong 2])).2 =
      [WireMessage.ping 1, WireMessage.pong 2] :=
  (c8_streaming.1 [.ping 1, .pong 2] (by decide)).1

/-! ### Example server states used by witnesses -/

/-- A registry with one peer `"p"` advertising a 1920×1080 screen. -/
def exPeers : PeersMap := fun d => if d = ("p") then some (1920, 1080) else none

/-- A 1920×1080 controller with `"p"` bound to the right edge, focus
local.  The center is the one `FocusManager::new` computes: `(960, 540)`. -/
def exFm : FocusManager :=
  (FocusManager.new 1920 1080).set_edge_device .right ("p") 1920 1080

/-- The same controller while focus is remote on `"p"`, entered through
the right edge at virtual position `(0, 540)`. -/
def exFmRemote : FocusManager :=
  { exFm with state := .remote ("p") 0 540 1920 1080 .right }

/-- Combined registry + focus state while `"p"` holds focus. -/
def exShared : ServerShared := ⟨exPeers, exFmRemote⟩

/-- C7: `remove_device(id)` removes every edge binding that maps to
`id` and leaves the bindings of other devices unchanged; it resets the
focus to Local exactly when the focus was Remote on `id`, and leaves it
unchanged otherwise.  It sends no message to any peer: its model (like
the Rust `fn remove_device(&mut self, device_id: &str)`) only transforms
the focus manager and has no access to any peer queue, which the last
conjunct records for the full teardown step. -/
theorem c7_remove_device (fm : FocusManager) (id : String) :
    (∀ e d w h, fm.edge_devices e = some (d, w, h) →
      (fm.remove_device id).edge_devices e =
        if d = id then none else some (d, w, h)) ∧
    (∀ e, fm.edge_devices e = none →
      (fm.remove_device id).edge_devices e = none) ∧
    (∀ vx vy rw rh e, fm.state = .remote id vx vy rw rh e →
      (fm.remove_device id).state = .local) ∧
    (∀ d vx vy rw rh e, fm.state = .remote d vx vy rw rh e → d ≠ id →
      (fm.remove_device id).state = fm.state) ∧
    (fm.state = .local → (fm.remove_device id).state = .local) ∧
    (∀ st : ServerShared, (teardown_dropFocus st id).peers = st.peers) := by
  refine ⟨?_, ?_, ?_, ?_, ?_, ?_⟩
  · intro e d w h he
    simp [FocusManager.remove_device, he]
  · intro e he
    simp [FocusManager.remove_device, he]
  · intro vx vy rw rh e hs
    simp [FocusManager.remove_device, hs]
  · intro d vx vy rw rh e hs hne
    simp [FocusManager.remove_device, hs, hne]
  · intro hs
    simp [FocusManager.remove_device, hs]
  · intro st
    rfl

/-- C7 witness: removing the focused right-edge peer clears its binding
and reverts the focus. -/
theorem c7_remove_device_witness :
    (exFmRemote.remove_device ("p")).edge_devices .right = none ∧
    (exFmRemote.remove_device ("p")).state = .local := by
  have h := c7_remove_device exFmRemote ("p")
  refine ⟨?_, h.2.2.1 0 540 1920 1080 .right rfl⟩
  have h1 := h.1 .right ("p") 1920 1080 (by rfl)
  simpa using h1

/-- C9, the claim as stated is false: starting the server with the
unparseable direction `"diagonal"` is not a fatal error; the direction
match falls through to the default and the server proceeds with
`Edge::Right`, exactly as it does for an explicit `"right"`. -/
theorem c9_direction_counterexample :
    parse_direction ("diagonal") = Edge.right ∧
    parse_direction ("diagonal") = parse_direction ("right") :=
  ⟨rfl, rfl⟩

/-- C9 (amended): a `--client-direction` value that is not one of
`left`, `right`, `top`, `bottom` (case-insensitively) is not rejected;
the program proceeds with the default direction `Right`. -/
theorem c9_direction_default (s : String)
    (h : lowercase s ≠ ("left") ∧ lowercase s ≠ ("right") ∧
      lowercase s ≠ ("top") ∧ lowercase s ≠ ("bottom")) :
    parse_direction s = Edge.right := by
  obtain ⟨h1, h2, h3, h4⟩ := h
  unfold parse_direction
  split <;> simp_all

/-- C9 witness: the unparseable direction `"diagonal"`. -/
theorem c9_direction_default_witness :
    parse_direction ("diagonal") = Edge.right :=
  c9_direction_default ("diagonal") ⟨by decide, by decide, by decide, by decide⟩

/-- C10: a `Hello` with an empty screens list does not abort the
handshake; the peer is registered with the default dimensions
1920×1080, which become its remote width and height both in the
registry and in the edge map used for edge mapping and clamping.
Other registry entries are untouched. -/
theorem c10_empty_screens (st : ServerShared) (dir : Edge) (id : String) :
    (registerPeer st dir id []).peers id = some (1920, 1080) ∧
    (registerPeer st dir id []).fm.edge_devices dir = some (id, 1920, 1080) ∧
    (∀ d, d ≠ id → (registerPeer st dir id []).peers d = st.peers d) := by
  refine ⟨?_, ?_, ?_⟩
  · simp [registerPeer, clientDims]
  · simp [registerPeer, clientDims, FocusManager.set_edge_device]
  · intro d hd
    simp [registerPeer, hd]

/-- C10 witness: registering a screenless client on the left edge. -/
theorem c10_empty_screens_witness :
    (registerPeer exShared .left ("q") []).peers ("q") = some (1920, 1080) ∧
    (registerPeer exShared .left ("q") []).fm.edge_devices .left =
      some (("q"), 1920, 1080) :=
  ⟨(c10_empty_screens exShared .left ("q")).1,
   (c10_empty_screens exShared .left ("q")).2.1⟩

/-- C4, the claim as stated is false: the teardown in `handle_client`
removes the peer from the registry *first* and only then asks the focus
manager to drop the device, so after the first step the focus is still
Remote on a device that is no longer registered. -/
theorem c4_teardown_counterexample :
    RegInv exShared ∧ ¬ RegInv (teardown_removePeer exShared ("p")) := by
  constructor
  · intro d vx vy rw rh e hs
    cases hs
    rfl
  · intro hinv
    have h := hinv ("p") 0 540 1920 1080 .right rfl
    simp [teardown_removePeer, exShared, exPeers] at h

/-- C4 (amended): the teardown removes the registry entry before
resetting the focus, so the invariant is violated in between; but after
the complete teardown sequence it holds again: if every Remote focus
pointed at a registered peer before, it still does afterwards (the
focus on the removed device has reverted to Local, and focus on any
other device keeps its registry entry). -/
theorem c4_teardown_restores (st : ServerShared) (id : String)
    (h : RegInv st) : RegInv (teardown st id) := by
  intro d vx vy rw rh e hs
  simp only [teardown, teardown_dropFocus, teardown_removePeer,
    FocusManager.remove_device] at hs ⊢
  revert hs
  cases hstate : st.fm.state with
  | «local» =>
      intro hs
      simp at hs
  | remote fid vx' vy' rw' rh' e' =>
      intro hs
      by_cases hfid : fid = id
      · simp [hfid] at hs
      · simp only [if_neg hfid, FocusState.remote.injEq] at hs
        obtain ⟨rfl, rfl, rfl, rfl, rfl, rfl⟩ := hs
        have hmem := h fid vx' vy' rw' rh' e' hstate
        simp [hfid, hmem]

/-- C4 witness: tearing down the focused peer restores the invariant. -/
theorem c4_teardown_restores_witness :
    RegInv (teardown exShared ("p")) := by
  have hpre : RegInv exShared := by
    intro d vx vy rw rh e hs
    cases hs
    rfl
  exact c4_teardown_restores exShared ("p") hpre

theorem peers_isSome_exists {peers : PeersMap} {d : String}
    (h : (peers d).isSome = true) : ∃ v, peers d = some v := by
  rcases hp : peers d with _ | v
  · rw [hp] at h
    simp at h
  · exact ⟨v, rfl⟩

/-- C1: in Remote focus on `d`, a local `MouseMove{x, y}` is processed
against the screen center `(cx, cy)`: if `(dx, dy) = (x−cx, y−cy)` is
`(0, 0)` the event is discarded with no send, no action, and the state
untouched; otherwise, with the clamped update `(vx′, vy′)`, reaching
the edge opposite the entry edge sends exactly one `LeaveScreen` with
that edge and position and reverts to Local with no warp, and otherwise
the stored position becomes `(vx′, vy′)`, exactly one
`MouseDelta{dx, dy}` goes to the focus device and one warp-to-center is
queued. -/
theorem c1_remote_mouse_move (fm : FocusManager) (peers : PeersMap)
    (d : String) (vx vy : ℚ) (rw rh : Nat) (ee : Edge)
    (hstate : fm.state = .remote d vx vy rw rh ee)
    (hpeer : (peers d).isSome = true) (x y : ℚ) :
    (x - (fm.center_x : ℚ) = 0 ∧ y - (fm.center_y : ℚ) = 0 →
      (handle_input_message (.mouseMove x y) fm peers).fm = fm ∧
      (handle_input_message (.mouseMove x y) fm peers).sent = [] ∧
      (handle_input_message (.mouseMove x y) fm peers).actions = []) ∧
    (¬(x - (fm.center_x : ℚ) = 0 ∧ y - (fm.center_y : ℚ) = 0) →
      FocusManager.check_virtual_edge
          (clampQ (vx + (x - (fm.center_x : ℚ))) 0 (rw : ℚ))
          (clampQ (vy + (y - (fm.center_y : ℚ))) 0 (rh : ℚ)) rw rh ee = true →
      (handle_input_message (.mouseMove x y) fm peers).fm.state = .local ∧
      (handle_input_message (.mouseMove x y) fm peers).sent =
        [(d, .leaveScreen 0 (FocusManager.opposite_edge ee)
          (clampQ (vx + (x - (fm.center_x : ℚ))) 0 (rw : ℚ))
          (clampQ (vy + (y - (fm.center_y : ℚ))) 0 (rh : ℚ)))] ∧
      (handle_input_message (.mouseMove x y) fm peers).actions = []) ∧
    (¬(x - (fm.center_x : ℚ) = 0 ∧ y - (fm.center_y : ℚ) = 0) →
      FocusManager.check_virtual_edge
          (clampQ (vx + (x - (fm.center_x : ℚ))) 0 (rw : ℚ))
          (clampQ (vy + (y - (fm.center_y : ℚ))) 0 (rh : ℚ)) rw rh ee = false →
      (handle_input_message (.mouseMove x y) fm peers).fm.state =
        .remote d (clampQ (vx + (x - (fm.center_x : ℚ))) 0 (rw : ℚ))
          (clampQ (vy + (y - (fm.center_y : ℚ))) 0 (rh : ℚ)) rw rh ee ∧
      (handle_input_message (.mouseMove x y) fm peers).sent =
        [(d, .mouseDelta (x - (fm.center_x : ℚ)) (y - (fm.center_y : ℚ)))] ∧
      (handle_input_message (.mouseMove x y) fm peers).actions =
        [.moveMouse fm.center_x fm.center_y]) := by
  obtain ⟨pv, hpv⟩ := peers_isSome_exists hpeer
  refine ⟨?_, ?_, ?_⟩
  · intro hd
    simp [handle_input_message, hstate, hd.1, hd.2]
  · intro hnd hedge
    simp [handle_input_message, hstate, if_neg hnd, hedge, hpv]
  · intro hnd hedge
    simp [handle_input_message, hstate, if_neg hnd, hedge, hpv]

/-- C1 witness: the delta-preservation scenario — from virtual
`(0, 540)` on a 1920×1080 remote entered through the right edge,
`MouseMove{970, 540}` sends exactly `MouseDelta{10, 0}`, moves the
virtual cursor to `(10, 540)` and queues the warp to `(960, 540)`. -/
theorem c1_remote_mouse_move_witness :
    (handle_input_message (.mouseMove 970 540) exFmRemote exPeers).fm.state =
      .remote ("p") 10 540 1920 1080 .right ∧
    (handle_input_message (.mouseMove 970 540) exFmRemote exPeers).sent =
      [(("p"), Msg.mouseDelta 10 0)] ∧
    (handle_input_message (.mouseMove 970 540) exFmRemote exPeers).actions =
      [.moveMouse 960 540] := by
  obtain ⟨-, -, h3⟩ := c1_remote_mouse_move exFmRemote exPeers ("p")
    0 540 1920 1080 .right rfl rfl 970 540
  have hcx : exFmRemote.center_x = 960 := rfl
  have hcy : exFmRemote.center_y = 540 := rfl
  rw [hcx, hcy] at h3
  obtain ⟨hst, hsent, hact⟩ := h3 (by norm_num)
    (by norm_num [FocusManager.check_virtual_edge, FocusManager.opposite_edge,
      clampQ])
  refine ⟨?_, ?_, ?_⟩
  · rw [hst]
    norm_num [clampQ]
  · rw [hsent]
    norm_num
  · rw [hact]

/-- C5: with Local focus, a `MouseMove` that reaches an edge bound to a
registered device enters Remote focus with the entry mapping, sends
`EnterScreen` then `MouseMove` to that peer and queues a warp to the
screen center; the entry mapping and the ordered threshold-2 edge test
are exactly the claimed formulas; a `MouseMove` reaching no bound edge,
and any other event in Local state, changes nothing and sends
nothing. -/
theorem c5_local_entry (fm : FocusManager) (peers : PeersMap)
    (hstate : fm.state = .local) :
    (∀ x y e d rw rh, fm.check_edge x y = some e →
      fm.edge_devices e = some (d, rw, rh) → (peers d).isSome = true →
      (handle_input_message (.mouseMove x y) fm peers).fm.state =
        .remote d
          (FocusManager.entry_position e x y fm.screen_w fm.screen_h rw rh).1
          (FocusManager.entry_position e x y fm.screen_w fm.screen_h rw rh).2
          rw rh e ∧
      (handle_input_message (.mouseMove x y) fm peers).sent =
        [(d, .enterScreen 0
            (FocusManager.entry_position e x y fm.screen_w fm.screen_h rw rh).1
            (FocusManager.entry_position e x y fm.screen_w fm.screen_h rw rh).2),
         (d, .mouseMove
            (FocusManager.entry_position e x y fm.screen_w fm.screen_h rw rh).1
            (FocusManager.entry_position e x y fm.screen_w fm.screen_h rw rh).2)] ∧
      (handle_input_message (.mouseMove x y) fm peers).actions =
        [.moveMouse fm.center_x fm.center_y]) ∧
    (∀ (e : Edge) (x y : ℚ) (sw sh rw rh : Nat),
      FocusManager.entry_position e x y sw sh rw rh =
        match e with
        | .right => (0, y * (rh : ℚ) / (sh : ℚ))
        | .left => ((rw : ℚ), y * (rh : ℚ) / (sh : ℚ))
        | .bottom => (x * (rw : ℚ) / (sw : ℚ), 0)
        | .top => (x * (rw : ℚ) / (sw : ℚ), (rh : ℚ))) ∧
    (∀ x y, fm.check_edge x y =
      (if x ≤ 2 then some .left
       else if x ≥ (fm.screen_w : ℚ) - 2 then some .right
       else if y ≤ 2 then some .top
       else if y ≥ (fm.screen_h : ℚ) - 2 then some .bottom
       else none)) ∧
    (∀ x y, fm.check_edge x y = none →
      (handle_input_message (.mouseMove x y) fm peers).fm = fm ∧
      (handle_input_message (.mouseMove x y) fm peers).sent = [] ∧
      (handle_input_message (.mouseMove x y) fm peers).actions = []) ∧
    (∀ x y e, fm.check_edge x y = some e → fm.edge_devices e = none →
      (handle_input_message (.mouseMove x y) fm peers).fm = fm ∧
      (handle_input_message (.mouseMove x y) fm peers).sent = [] ∧
      (handle_input_message (.mouseMove x y) fm peers).actions = []) ∧
    (∀ msg : Msg, (∀ x y, msg ≠ .mouseMove x y) →
      (handle_input_message msg fm peers).fm = fm ∧
      (handle_input_message msg fm peers).sent = [] ∧
      (handle_input_message msg fm peers).actions = []) := by
  refine ⟨?_, ?_, ?_, ?_, ?_, ?_⟩
  · intro x y e d rw rh hce hdev hpeer
    obtain ⟨pv, hpv⟩ := peers_isSome_exists hpeer
    simp [handle_input_message, hstate, hce, hdev, hpv]
  · intro e x y sw sh rw rh
    cases e <;> rfl
  · intro x y
    rfl
  · intro x y hce
    simp [handle_input_message, hstate, hce]
  · intro x y e hce hdev
    simp [handle_input_message, hstate, hce, hdev]
  · intro msg hmsg
    cases msg with
    | mouseMove a b => exact absurd rfl (hmsg a b)
    | _ => simp [handle_input_message, hstate]

/-- C5 witness: the entry scenario — local cursor `(1919, 400)` on the
1920×1080 controller with `"p"` on the right edge enters Remote at
virtual `(0, 400)`, sending `EnterScreen` then `MouseMove` and warping
to `(960, 540)`. -/
theorem c5_local_entry_witness :
    (handle_input_message (.mouseMove 1919 400) exFm exPeers).fm.state =
      .remote ("p") 0 400 1920 1080 .right ∧
    (handle_input_message (.mouseMove 1919 400) exFm exPeers).sent =
      [(("p"), Msg.enterScreen 0 0 400), (("p"), Msg.mouseMove 0 400)] ∧
    (handle_input_message (.mouseMove 1919 400) exFm exPeers).actions =
      [.moveMouse 960 540] := by
  obtain ⟨h1, -, -, -, -, -⟩ := c5_local_entry exFm exPeers rfl
  have hce : exFm.check_edge 1919 400 = some .right := by
    norm_num [FocusManager.check_edge, EDGE_THRESHOLD, exFm,
      FocusManager.set_edge_device, FocusManager.new]
  obtain ⟨hst, hsent, hact⟩ := h1 1919 400 .right ("p") 1920 1080
    hce rfl rfl
  have hpos : FocusManager.entry_position .right 1919 400
      exFm.screen_w exFm.screen_h 1920 1080 = (0, 400) := by
    norm_num [FocusManager.entry_position, exFm,
      FocusManager.set_edge_device, FocusManager.new]
  rw [hpos] at hst hsent
  refine ⟨?_, ?_, ?_⟩
  · rw [hst]
  · rw [hsent]
  · rw [hact]
    rfl

/-- The in-range property of the spec for the virtual cursor:
`virtual_x ∈ [0, remote_w]` and `virtual_y ∈ [0, remote_h]`. -/
def FocusInv : FocusState → Prop
  | .local => True
  | .remote _ vx vy rw rh _ => 0 ≤ vx ∧ vx ≤ (rw : ℚ) ∧ 0 ≤ vy ∧ vy ≤ (rh : ℚ)

theorem clampQ_le {v lo hi : ℚ} (h : lo ≤ hi) :
    lo ≤ clampQ v lo hi ∧ clampQ v lo hi ≤ hi := by
  unfold clampQ
  split_ifs <;> constructor <;> linarith

theorem scale_nonneg_le {a : ℚ} {s r : Nat} (ha : 0 ≤ a) (has : a ≤ (s : ℚ)) :
    0 ≤ a * (r : ℚ) / (s : ℚ) ∧ a * (r : ℚ) / (s : ℚ) ≤ (r : ℚ) := by
  have hr : (0 : ℚ) ≤ (r : ℚ) := Nat.cast_nonneg r
  have hs0 : (0 : ℚ) ≤ (s : ℚ) := Nat.cast_nonneg s
  rcases hs0.eq_or_lt with hs | hs
  · have ha0 : a = 0 := le_antisymm (hs ▸ has) ha
    simp [ha0, hr]
  · constructor
    · positivity
    · rw [div_le_iff hs]
      nlinarith

/-- A message that is not a `MouseMove` never changes the focus
manager: in Local state it is ignored, in Remote state it is forwarded
without touching the state. -/
theorem handle_nonmouse_fm (msg : Msg) (fm : FocusManager) (peers : PeersMap)
    (h : ∀ x y, msg ≠ Msg.mouseMove x y) :
    (handle_input_message msg fm peers).fm = fm := by
  cases hstate : fm.state <;> cases msg <;>
    first
      | (exact absurd rfl (h _ _))
      | simp [handle_input_message, hstate]

/-- C6, the claim as stated is false: entry from a local cursor
position outside the controller screen produces an out-of-range virtual
cursor, because `entry_position` does not clamp.  At cursor
`(1919, −50)` the right edge fires and the stored virtual position is
`(0, −50)` with `virtual_y < 0`. -/
theorem c6_range_counterexample :
    (handle_input_message (.mouseMove 1919 (-50)) exFm exPeers).fm.state =
      .remote ("p") 0 (-50) 1920 1080 .right ∧ ¬(0 ≤ (-50 : ℚ)) := by
  constructor
  · have hstate : exFm.state = FocusState.local := rfl
    have hce : exFm.check_edge 1919 (-50) = some .right := by
      norm_num [FocusManager.check_edge, EDGE_THRESHOLD, exFm,
        FocusManager.set_edge_device, FocusManager.new]
    have hdev : exFm.edge_devices .right = some (("p"), 1920, 1080) := rfl
    have hpv : exPeers ("p") = some (1920, 1080) := rfl
    have hpos : FocusManager.entry_position .right 1919 (-50)
        exFm.screen_w exFm.screen_h 1920 1080 = (0, -50) := by
      norm_num [FocusManager.entry_position, exFm,
        FocusManager.set_edge_device, FocusManager.new]
    simp [handle_input_message, hstate, hce, hdev, hpv, hpos]
  · norm_num

/-- C6 (amended): the virtual cursor stays in
`[0, remote_w] × [0, remote_h]` across every processed event, provided
entry happens from a cursor position that lies on the controller screen
(`(x, y) ∈ [0, screen_w] × [0, screen_h]`); once Remote, every
`MouseMove` update is clamped and the invariant is preserved
unconditionally. -/
theorem c6_virtual_in_range (fm : FocusManager) (peers : PeersMap) (msg : Msg)
    (hinv : FocusInv fm.state)
    (hentry : ∀ x y, fm.state = .local → msg = .mouseMove x y →
      0 ≤ x ∧ x ≤ (fm.screen_w : ℚ) ∧ 0 ≤ y ∧ y ≤ (fm.screen_h : ℚ)) :
    FocusInv (handle_input_message msg fm peers).fm.state := by
  cases msg <;>
    try (rw [handle_nonmouse_fm _ _ _ (fun x y h => Msg.noConfusion h)]
         exact hinv)
  rename_i x y
  cases hstate : fm.state with
  | «local» =>
      obtain ⟨hx0, hxw, hy0, hyh⟩ := hentry x y hstate rfl
      cases hce : fm.check_edge x y with
      | none => simp [handle_input_message, hstate, hce, FocusInv]
      | some e =>
          cases hdev : fm.edge_devices e with
          | none => simp [handle_input_message, hstate, hce, hdev, FocusInv]
          | some t =>
              obtain ⟨d, rw', rh'⟩ := t
              have h1 := scale_nonneg_le (r := rh') hy0 hyh
              have h2 := scale_nonneg_le (r := rw') hx0 hxw
              have hrw : (0 : ℚ) ≤ (rw' : ℚ) := Nat.cast_nonneg rw'
              have hrh : (0 : ℚ) ≤ (rh' : ℚ) := Nat.cast_nonneg rh'
              cases e <;>
                simp [handle_input_message, hstate, hce, hdev, FocusInv,
                  FocusManager.entry_position] <;>
                and_intros <;>
                first
                  | exact le_refl 0
                  | exact hrw
                  | exact hrh
                  | exact h1.1
                  | exact h1.2
                  | exact h2.1
                  | exact h2.2
                  | linarith [h1.1, h1.2, h2.1, h2.2]
  | remote d vx vy rw' rh' ee =>
      rw [hstate] at hinv
      simp only [FocusInv] at hinv
      by_cases hd : x - (fm.center_x : ℚ) = 0 ∧ y - (fm.center_y : ℚ) = 0
      · have : (handle_input_message (.mouseMove x y) fm peers).fm = fm := by
          simp [handle_input_message, hstate, hd.1, hd.2]
        rw [this, hstate]
        simp only [FocusInv]
        exact hinv
      · have hcw := clampQ_le (v := vx + (x - (fm.center_x : ℚ)))
          (Nat.cast_nonneg rw' : (0 : ℚ) ≤ (rw' : ℚ))
        have hch := clampQ_le (v := vy + (y - (fm.center_y : ℚ)))
          (Nat.cast_nonneg rh' : (0 : ℚ) ≤ (rh' : ℚ))
        by_cases hve : FocusManager.check_virtual_edge
            (clampQ (vx + (x - (fm.center_x : ℚ))) 0 (rw' : ℚ))
            (clampQ (vy + (y - (fm.center_y : ℚ))) 0 (rh' : ℚ)) rw' rh' ee = true
        · simp [handle_input_message, hstate, if_neg hd, hve, FocusInv]
        · have hve' : FocusManager.check_virtual_edge
              (clampQ (vx + (x - (fm.center_x : ℚ))) 0 (rw' : ℚ))
              (clampQ (vy + (y - (fm.center_y : ℚ))) 0 (rh' : ℚ)) rw' rh' ee =
                false := by
            simpa using hve
          simp [handle_input_message, hstate, if_neg hd, hve', FocusInv]
          exact ⟨hcw.1, hcw.2, hch.1, hch.2⟩

/-- C6 witness: an in-screen entry at `(1919, 400)` followed by nothing
keeps the virtual cursor in range. -/
theorem c6_virtual_in_range_witness :
    FocusInv (handle_input_message (.mouseMove 1919 400) exFm exPeers).fm.state := by
  refine c6_virtual_in_range exFm exPeers (.mouseMove 1919 400) trivial ?_
  intro x y _ hm
  injection hm with hx hy
  subst hx
  subst hy
  refine ⟨by norm_num, ?_, by norm_num, ?_⟩ <;>
    norm_num [exFm, FocusManager.set_edge_device, FocusManager.new]

end Synapse
